import Mathlib

/-!
Verification of the map/reduce source-classification pipeline.

This file gives a shallow embedding of the pipeline's Python sources:

* `src/problemset/programmingerrors/mapper.py` (structural-error extractor),
* `src/problemset/programmingerrors/reducer.py` (key `(source_id, tag)`),
* `src/problemset/languagestructures/mapper.py` (language-construct extractor),
* `src/problemset/lintrules/mapper.py` (external lint adapter),
* `src/proofofconcept/jobs/reducer.py` (key `source_id`),

and proves or refutes the frozen specification claims about them.

Embedding conventions:

* The Python `ast` node vocabulary is embedded as the closed fragment of node
  kinds that the two extractors inspect (`isinstance` checks), together with
  the generic containers needed to build whole modules.  Node kinds that are
  not modelled cannot change any extractor's behaviour, because every detector
  matches only on the kinds below and the default arm emits nothing.
* `ast.walk` is a breadth-first queue traversal; it is embedded literally as a
  queue loop (`walkAux`), with termination given by the total size of the
  queue.  Child nodes that match no detector (operator objects, expression
  contexts, `alias` objects, argument lists) are omitted from the child lists;
  they are leaves and produce no observations.
* Machine strings are Lean `String`s; where the proofs have to compute on
  them, the character list `String.data` is used, so everything stays
  executable and kernel-reducible.
* Python `str.strip`, `str.split` and `int(...)` are embedded as executable
  character-list functions below (`pyStrip`, `splitOnChar`, `pyInt?`).  The
  embedding of `int` accepts an optional sign and decimal digits and ignores
  Python's underscore-separator extension, which no claim touches.
-/

/-- Expression context of an `ast.Name` node (`ast.Load`, `ast.Store`,
`ast.Del`). -/
inductive CtxKind where
  | load
  | store
  | del
deriving Repr

/-- Binary operator kinds of `ast.BinOp` (class names of `node.op`). -/
inductive BinOpKind where
  | add | sub | mult | div | mod | pow | floorDiv
  | lshift | rshift | bitOr | bitXor | bitAnd | matMult
deriving Repr

/-- Boolean operator kinds of `ast.BoolOp`. -/
inductive BoolOpKind where
  | and | or
deriving Repr

/-- Unary operator kinds of `ast.UnaryOp`. -/
inductive UnaryOpKind where
  | not | uadd | usub | invert
deriving Repr

/-- Comparison operator kinds inside `ast.Compare`. -/
inductive CmpOpKind where
  | eq | notEq | lt | ltE | gt | gtE | is | isNot | in' | notIn
deriving Repr

/-- Literal constants of `ast.Constant`.  Only the kinds a detector can
distinguish are needed: the div-by-zero detector evaluates the Python
comparison `node.right.value == 0`, which is true for `0` and for `False`. -/
inductive ConstVal where
  | int (n : Int)
  | str (s : String)
  | bool (b : Bool)
  | noneV
deriving Repr

/-- One `ast.alias` entry of an import statement; only `alias.name` is read
by the mapper. -/
structure ImportAlias where
  name : String
deriving Repr

mutual

/-- Python expressions (the fragment the extractors inspect). -/
inductive Expr where
  | name (id : String) (ctx : CtxKind)
  | const (value : ConstVal)
  | binOp (left : Expr) (op : BinOpKind) (right : Expr)
  | boolOp (op : BoolOpKind) (values : List Expr)
  | unaryOp (op : UnaryOpKind) (operand : Expr)
  | compare (left : Expr) (ops : List CmpOpKind) (comparators : List Expr)
  | call (func : Expr) (args : List Expr)
  | listE (elts : List Expr)
  | dictE (keys : List Expr) (values : List Expr)
  | setE (elts : List Expr)

/-- Python statements (the fragment the extractors inspect).  `ret` embeds
`ast.Return`, `imp` embeds `ast.Import`, `impFrom` embeds `ast.ImportFrom`. -/
inductive Stmt where
  | functionDef (name : String) (body : List Stmt)
  | ret (value : Option Expr)
  | assign (targets : List Expr) (value : Expr)
  | exprStmt (value : Expr)
  | ifS (test : Expr) (body : List Stmt) (orelse : List Stmt)
  | forS (target : Expr) (iter : Expr) (body : List Stmt) (orelse : List Stmt)
  | whileS (test : Expr) (body : List Stmt) (orelse : List Stmt)
  | tryS (body : List Stmt) (handlers : List Handler) (orelse : List Stmt)
      (finalbody : List Stmt)
  | imp (names : List ImportAlias)
  | impFrom (module : Option String) (names : List ImportAlias)
  | pass

/-- An `ast.ExceptHandler`: optional exception type and handler body.  (The
optional capture name is read by no detector and omitted.) -/
inductive Handler where
  | mk (type : Option Expr) (body : List Stmt)

end

/-- A node of the parse tree, as enumerated by `ast.walk`: the `ast.Module`
root, statements, expressions and exception handlers. -/
inductive Node where
  | mod (body : List Stmt)
  | stmt (s : Stmt)
  | expr (e : Expr)
  | handler (h : Handler)

/-- Child nodes contributed by an optional expression field. -/
def optExprChild : Option Expr → List Node
  | none => []
  | some e => [Node.expr e]

/-- `ast.iter_child_nodes`: the direct child nodes of one node, in field
order.  Operator objects, contexts and `alias` objects are leaves matching no
detector and are omitted (see the header). -/
def Node.children : Node → List Node
  | .mod body => body.map Node.stmt
  | .stmt s =>
    match s with
    | .functionDef _ body => body.map Node.stmt
    | .ret v => optExprChild v
    | .assign ts v => ts.map Node.expr ++ [Node.expr v]
    | .exprStmt v => [Node.expr v]
    | .ifS t b e => Node.expr t :: (b.map Node.stmt ++ e.map Node.stmt)
    | .forS tg it b e =>
        Node.expr tg :: Node.expr it :: (b.map Node.stmt ++ e.map Node.stmt)
    | .whileS t b e => Node.expr t :: (b.map Node.stmt ++ e.map Node.stmt)
    | .tryS b hs e f =>
        b.map Node.stmt ++ hs.map Node.handler ++ e.map Node.stmt
          ++ f.map Node.stmt
    | .imp _ => []
    | .impFrom _ _ => []
    | .pass => []
  | .expr e =>
    match e with
    | .name _ _ => []
    | .const _ => []
    | .binOp l _ r => [Node.expr l, Node.expr r]
    | .boolOp _ vs => vs.map Node.expr
    | .unaryOp _ o => [Node.expr o]
    | .compare l _ cs => Node.expr l :: cs.map Node.expr
    | .call f args => Node.expr f :: args.map Node.expr
    | .listE es => es.map Node.expr
    | .dictE ks vs => ks.map Node.expr ++ vs.map Node.expr
    | .setE es => es.map Node.expr
  | .handler (.mk t body) => optExprChild t ++ body.map Node.stmt

/-- Summed node sizes of a statement list lifted into `Node` stay below the
size of the list itself. -/
theorem sum_map_stmt_lt (l : List Stmt) :
    ((l.map Node.stmt).map fun c => sizeOf c).sum < sizeOf l := by
  induction l with
  | nil => simp
  | cons a t ih =>
    simp only [List.map_cons, List.sum_cons, List.cons.sizeOf_spec,
      Node.stmt.sizeOf_spec]
    omega

/-- Summed node sizes of an expression list lifted into `Node` stay below the
size of the list itself. -/
theorem sum_map_expr_lt (l : List Expr) :
    ((l.map Node.expr).map fun c => sizeOf c).sum < sizeOf l := by
  induction l with
  | nil => simp
  | cons a t ih =>
    simp only [List.map_cons, List.sum_cons, List.cons.sizeOf_spec,
      Node.expr.sizeOf_spec]
    omega

/-- Summed node sizes of a handler list lifted into `Node` stay below the
size of the list itself. -/
theorem sum_map_handler_lt (l : List Handler) :
    ((l.map Node.handler).map fun c => sizeOf c).sum < sizeOf l := by
  induction l with
  | nil => simp
  | cons a t ih =>
    simp only [List.map_cons, List.sum_cons, List.cons.sizeOf_spec,
      Node.handler.sizeOf_spec]
    omega

/-- Summed node sizes of an optional expression child. -/
theorem sum_opt_expr_le (v : Option Expr) :
    ((optExprChild v).map fun c => sizeOf c).sum <= sizeOf v := by
  match v with
  | none => simp [optExprChild]
  | some e =>
    simp only [optExprChild, List.map_cons, List.map_nil, List.sum_cons,
      List.sum_nil, Node.expr.sizeOf_spec, Option.some.sizeOf_spec]
    omega

/-- Every operator-kind object has positive size. -/
theorem binOpKind_sizeOf_pos (op : BinOpKind) : 0 < sizeOf op := by
  cases op <;> simp

/-- The children of a node are together strictly smaller than the node:
the termination measure of the `ast.walk` queue loop. -/
theorem children_sizeOf_lt (n : Node) :
    ((Node.children n).map fun c => sizeOf c).sum < sizeOf n := by
  match n with
  | .mod body =>
    have h := sum_map_stmt_lt body
    simp only [Node.children, Node.mod.sizeOf_spec]
    omega
  | .stmt s =>
    match s with
    | .functionDef nm body =>
      have h := sum_map_stmt_lt body
      simp only [Node.children, Node.stmt.sizeOf_spec,
        Stmt.functionDef.sizeOf_spec]
      omega
    | .ret v =>
      have h := sum_opt_expr_le v
      simp only [Node.children, Node.stmt.sizeOf_spec, Stmt.ret.sizeOf_spec]
      omega
    | .assign ts v =>
      have h := sum_map_expr_lt ts
      simp only [Node.children, Node.stmt.sizeOf_spec, Stmt.assign.sizeOf_spec,
        List.map_append, List.sum_append, List.map_cons, List.map_nil,
        List.sum_cons, List.sum_nil, Node.expr.sizeOf_spec]
      omega
    | .exprStmt v =>
      simp only [Node.children, Node.stmt.sizeOf_spec,
        Stmt.exprStmt.sizeOf_spec, List.map_cons, List.map_nil, List.sum_cons,
        List.sum_nil, Node.expr.sizeOf_spec]
      omega
    | .ifS t b e =>
      have hb := sum_map_stmt_lt b
      have he := sum_map_stmt_lt e
      simp only [Node.children, Node.stmt.sizeOf_spec, Stmt.ifS.sizeOf_spec,
        List.map_append, List.sum_append, List.map_cons, List.sum_cons,
        Node.expr.sizeOf_spec]
      omega
    | .forS tg it b e =>
      have hb := sum_map_stmt_lt b
      have he := sum_map_stmt_lt e
      simp only [Node.children, Node.stmt.sizeOf_spec, Stmt.forS.sizeOf_spec,
        List.map_append, List.sum_append, List.map_cons, List.sum_cons,
        Node.expr.sizeOf_spec]
      omega
    | .whileS t b e =>
      have hb := sum_map_stmt_lt b
      have he := sum_map_stmt_lt e
      simp only [Node.children, Node.stmt.sizeOf_spec, Stmt.whileS.sizeOf_spec,
        List.map_append, List.sum_append, List.map_cons, List.sum_cons,
        Node.expr.sizeOf_spec]
      omega
    | .tryS b hs e f =>
      have hb := sum_map_stmt_lt b
      have hh := sum_map_handler_lt hs
      have he := sum_map_stmt_lt e
      have hf := sum_map_stmt_lt f
      simp only [Node.children, Node.stmt.sizeOf_spec, Stmt.tryS.sizeOf_spec,
        List.map_append, List.sum_append]
      omega
    | .imp ns =>
      simp only [Node.children, Node.stmt.sizeOf_spec, Stmt.imp.sizeOf_spec,
        List.map_nil, List.sum_nil]
      omega
    | .impFrom m ns =>
      simp only [Node.children, Node.stmt.sizeOf_spec,
        Stmt.impFrom.sizeOf_spec, List.map_nil, List.sum_nil]
      omega
    | .pass =>
      simp only [Node.children, Node.stmt.sizeOf_spec, Stmt.pass.sizeOf_spec,
        List.map_nil, List.sum_nil]
      omega
  | .expr e =>
    match e with
    | .name i c =>
      simp only [Node.children, Node.expr.sizeOf_spec, Expr.name.sizeOf_spec,
        List.map_nil, List.sum_nil]
      omega
    | .const v =>
      simp only [Node.children, Node.expr.sizeOf_spec, Expr.const.sizeOf_spec,
        List.map_nil, List.sum_nil]
      omega
    | .binOp l op r =>
      have h := binOpKind_sizeOf_pos op
      simp only [Node.children, Node.expr.sizeOf_spec, Expr.binOp.sizeOf_spec,
        List.map_cons, List.map_nil, List.sum_cons, List.sum_nil]
      omega
    | .boolOp op vs =>
      have h := sum_map_expr_lt vs
      simp only [Node.children, Node.expr.sizeOf_spec, Expr.boolOp.sizeOf_spec]
      omega
    | .unaryOp op o =>
      simp only [Node.children, Node.expr.sizeOf_spec,
        Expr.unaryOp.sizeOf_spec, List.map_cons, List.map_nil, List.sum_cons,
        List.sum_nil]
      omega
    | .compare l ops cs =>
      have h := sum_map_expr_lt cs
      simp only [Node.children, Node.expr.sizeOf_spec,
        Expr.compare.sizeOf_spec, List.map_cons, List.sum_cons]
      omega
    | .call f args =>
      have h := sum_map_expr_lt args
      simp only [Node.children, Node.expr.sizeOf_spec, Expr.call.sizeOf_spec,
        List.map_cons, List.sum_cons]
      omega
    | .listE es =>
      have h := sum_map_expr_lt es
      simp only [Node.children, Node.expr.sizeOf_spec, Expr.listE.sizeOf_spec]
      omega
    | .dictE ks vs =>
      have hk := sum_map_expr_lt ks
      have hv := sum_map_expr_lt vs
      simp only [Node.children, Node.expr.sizeOf_spec, Expr.dictE.sizeOf_spec,
        List.map_append, List.sum_append]
      omega
    | .setE es =>
      have h := sum_map_expr_lt es
      simp only [Node.children, Node.expr.sizeOf_spec, Expr.setE.sizeOf_spec]
      omega
  | .handler (.mk t body) =>
    have ht := sum_opt_expr_le t
    have hb := sum_map_stmt_lt body
    simp only [Node.children, Node.handler.sizeOf_spec, Handler.mk.sizeOf_spec,
      List.map_append, List.sum_append]
    omega

/-- The queue loop of `ast.walk`: pop a node, yield it, push its children at
the back of the queue (breadth-first order). -/
def walkAux : List Node → List Node
  | [] => []
  | n :: q => n :: walkAux (q ++ n.children)
termination_by q => (q.map fun c => sizeOf c).sum
decreasing_by
  simp [List.map_append, List.sum_append]
  have := children_sizeOf_lt n
  omega

/-- `ast.walk(tree)`: every node of the tree, root first, in breadth-first
order. -/
def walk (root : Node) : List Node :=
  walkAux [root]

/-- One emitted observation `(source_id, tag, count)` of an extractor.  Both
extractors print each observation as one tab-separated line; `Obs.fmt` below
is that serialization. -/
structure Obs where
  sid : String
  tag : String
  cnt : Int
deriving DecidableEq, Repr

/-- The f-string serialization used by every `print` of the
programmingerrors mapper: three fields joined by tabs. -/
def Obs.fmt (o : Obs) : String :=
  o.sid ++ "\t" ++ o.tag ++ "\t" ++ toString o.cnt

/-- Exception classes that `ast.parse` can raise.  `SyntaxError` covers
invalid, incomplete and legacy syntax; `MemoryError` is raised by the CPython
parser when an expression exhausts its internal stack (observed concretely on
CPython 3.11 for the source `'-' * 200000 + '5'`); further classes are
abstracted as `otherError`.  Both mappers guard `ast.parse` with
`except SyntaxError` only. -/
inductive PyExc where
  | syntaxError
  | memoryError
  | otherError
deriving DecidableEq, Repr

/-- `str.upper()` restricted to the ASCII identifiers that occur in tags. -/
def pyUpper (s : String) : String :=
  String.mk (s.data.map Char.toUpper)

/-- Finite stand-in for the reflective builtin test
`hasattr(__builtins__, name)` of the programmingerrors mapper: an explicit
static set of reserved identifiers (the spec's design note prescribes exactly
this replacement).  Claims depend on it only through concrete membership
facts such as `print` being reserved and fresh identifiers not being so. -/
def builtinNames : List String :=
  ["print", "range", "len", "int", "str", "float", "list", "dict", "set",
   "sum", "min", "max", "abs", "input", "open", "sorted", "enumerate", "zip",
   "map", "filter", "bool", "type", "isinstance", "Exception", "ValueError"]

/-- `NameCollector.visit_Name`: a name read in `ast.Load` context. -/
def loadName : Node → Option String
  | .expr (.name id .load) => some id
  | _ => none

/-- `NameCollector.visit_Assign`: the identifiers of the `ast.Name` targets
of one assignment node (other nodes contribute none). -/
def assignTargets : Node → List String
  | .stmt (.assign ts _) =>
      ts.filterMap fun e =>
        match e with
        | .name id _ => some id
        | _ => none
  | _ => []

/-- The mapper's `used_names`: every `ast.Load`-context name occurrence in
the unit, one entry per occurrence.  The visitor walks every node once; the
collection is order-insensitive for every property stated below, so the node
enumeration of `walk` is reused. -/
def usedNames (root : Node) : List String :=
  (walk root).filterMap loadName

/-- The mapper's `defined_names` binding set: every identifier that occurs
as a simple `ast.Name` assignment target anywhere in the unit (no scope
tracking). -/
def definedNames (root : Node) : List String :=
  (walk root).flatMap assignTargets

/-- The undefined-name emission loop: for each entry of `used_names` (per
occurrence, in order) that is neither in the binding set nor a reserved
builtin, print one `ERROR_NAME_UNDEFINED_<NAME>` observation. -/
def undefObs (f : String) (root : Node) : List Obs :=
  (usedNames root).filterMap fun n =>
    if n ∈ definedNames root ∨ n ∈ builtinNames then none
    else some ⟨f, "ERROR_NAME_UNDEFINED_" ++ pyUpper n, 1⟩

/-- The Python comparison `node.right.value == 0` on an `ast.Constant`
operand: true for the integer `0` and for `False` (Python bool equality with
`0`). -/
def constValIsZero : ConstVal → Bool
  | .int n => n == 0
  | .bool b => !b
  | _ => false

/-- Right operand test of the div-by-zero detector:
`isinstance(node.right, ast.Constant) and node.right.value == 0`. -/
def divRightIsZeroConst : Expr → Bool
  | .const v => constValIsZero v
  | _ => false

/-- The `isinstance(stmt, ast.Return)` test. -/
def isRet : Stmt → Bool
  | .ret _ => true
  | _ => false

/-- The unreachable-code scan over one function body: `found_return` starts
false; an `ast.Return` sets it and `continue`s; the first later statement
that is not a return prints one `ERROR_UNREACHABLE_CODE` observation and
`break`s out of the scan. -/
def unreachableFlag (f : String) : Bool → List Stmt → List Obs
  | _, [] => []
  | foundRet, s :: rest =>
    if isRet s then unreachableFlag f true rest
    else if foundRet then [⟨f, "ERROR_UNREACHABLE_CODE", 1⟩]
    else unreachableFlag f foundRet rest

/-- The structural-error detectors of the programmingerrors mapper applied
to one walked node, in source order: bare except, empty except, division by
the literal zero, `pass` statement, unreachable code after `return`, call of
a name literally spelled `print`. -/
def peNodeObs (f : String) : Node → List Obs
  | .handler (.mk t body) =>
    (match t with
     | none => [⟨f, "ERROR_BARE_EXCEPT", 1⟩]
     | some _ => [])
      ++ (match body with
          | [] => [⟨f, "ERROR_EMPTY_EXCEPT", 1⟩]
          | _ => [])
  | .expr (.binOp _ op r) =>
    match op with
    | .div => if divRightIsZeroConst r then [⟨f, "ERROR_DIV_BY_ZERO", 1⟩] else []
    | _ => []
  | .stmt .pass => [⟨f, "ERROR_USELESS_PASS", 1⟩]
  | .stmt (.functionDef _ body) => unreachableFlag f false body
  | .expr (.call fn _) =>
    match fn with
    | .name id _ => if id = "print" then [⟨f, "WARNING_PRINT_USED", 1⟩] else []
    | _ => []
  | _ => []

/-- Observation sequence of the programmingerrors mapper on a successfully
parsed unit: the undefined-name loop first, then the `ast.walk` loop of
structural detectors. -/
def peMapperObs (f : String) (root : Node) : List Obs :=
  undefObs f root ++ (walk root).flatMap (peNodeObs f)

/-- Top level of `src/problemset/programmingerrors/mapper.py`: `ast.parse`
under `try/except SyntaxError`.  A `SyntaxError` becomes the single
`SYNTAX_ERROR` observation and the process exits cleanly; any other
exception class propagates to the caller; on success the unit is classified.
The argument is the outcome of the external `ast.parse` call. -/
def peMapper (f : String) : Except PyExc Node → Except PyExc (List Obs)
  | .error .syntaxError => .ok [⟨f, "SYNTAX_ERROR", 1⟩]
  | .error e => .error e
  | .ok root => .ok (peMapperObs f root)

/-- Python class names of binary operator nodes after `.upper()`. -/
def binOpClassName : BinOpKind → String
  | .add => "ADD" | .sub => "SUB" | .mult => "MULT" | .div => "DIV"
  | .mod => "MOD" | .pow => "POW" | .floorDiv => "FLOORDIV"
  | .lshift => "LSHIFT" | .rshift => "RSHIFT" | .bitOr => "BITOR"
  | .bitXor => "BITXOR" | .bitAnd => "BITAND" | .matMult => "MATMULT"

/-- Python class names of boolean operator nodes after `.upper()`. -/
def boolOpClassName : BoolOpKind → String
  | .and => "AND" | .or => "OR"

/-- Python class names of unary operator nodes after `.upper()`. -/
def unaryOpClassName : UnaryOpKind → String
  | .not => "NOT" | .uadd => "UADD" | .usub => "USUB" | .invert => "INVERT"

/-- Python class names of comparison operator nodes after `.upper()`. -/
def cmpOpClassName : CmpOpKind → String
  | .eq => "EQ" | .notEq => "NOTEQ" | .lt => "LT" | .ltE => "LTE"
  | .gt => "GT" | .gtE => "GTE" | .is => "IS" | .isNot => "ISNOT"
  | .in' => "IN" | .notIn => "NOTIN"

/-- Output lines of the languagestructures mapper for one walked node,
copying each `print` f-string literally.  Note that the two import arms
print FOUR tab-separated fields (`source \t IMPORT \t name \t 1` and
`source \t IMPORT_FROM \t module.name \t 1`), unlike every other arm. -/
def lsNodeLines (f : String) : Node → List String
  | .stmt (.imp names) =>
      names.map fun a => f ++ "\tIMPORT\t" ++ a.name ++ "\t1"
  | .stmt (.impFrom m names) =>
      names.map fun a =>
        f ++ "\tIMPORT_FROM\t"
          ++ (match m with | some s => s | none => "UNKNOWN_MODULE")
          ++ "." ++ a.name ++ "\t1"
  | .expr (.binOp _ op _) => [f ++ "\tOPERATOR_" ++ binOpClassName op ++ "\t1"]
  | .expr (.boolOp op _) => [f ++ "\tBOOLEAN_OP_" ++ boolOpClassName op ++ "\t1"]
  | .expr (.unaryOp op _) => [f ++ "\tUNARY_OP_" ++ unaryOpClassName op ++ "\t1"]
  | .expr (.compare _ ops _) =>
      ops.map fun op => f ++ "\tCOMPARE_OP_" ++ cmpOpClassName op ++ "\t1"
  | .stmt (.ifS _ _ orelse) =>
      [f ++ "\tCONTROL_IF\t1"]
        ++ (match orelse with
            | [] => []
            | _ => [f ++ "\tCONTROL_ELSE\t1"])
  | .stmt (.forS ..) => [f ++ "\tCONTROL_FOR\t1"]
  | .stmt (.whileS ..) => [f ++ "\tCONTROL_WHILE\t1"]
  | .stmt (.functionDef ..) => [f ++ "\tFUNCTION_DEF\t1"]
  | .expr (.listE _) => [f ++ "\tDATA_LIST\t1"]
  | .expr (.dictE ..) => [f ++ "\tDATA_DICT\t1"]
  | .expr (.setE _) => [f ++ "\tDATA_SET\t1"]
  | _ => []

/-- Top level of `src/problemset/languagestructures/mapper.py`: the same
`try/except SyntaxError` guard around `ast.parse`, then one `ast.walk` pass
printing construct lines. -/
def lsMapper (f : String) : Except PyExc Node → Except PyExc (List String)
  | .error .syntaxError => .ok [f ++ "\tSYNTAX_ERROR\t1"]
  | .error e => .error e
  | .ok root => .ok ((walk root).flatMap (lsNodeLines f))

/-- Python whitespace for `str.strip()` (the ASCII whitespace characters;
unicode whitespace does not occur in the wire format). -/
def isPySpace (c : Char) : Bool :=
  c = ' ' || c = '\t' || c = '\n' || c = '\x0d' || c = '\x0b' || c = '\x0c'

/-- `str.strip()`: drop leading and trailing whitespace. -/
def pyStrip (l : List Char) : List Char :=
  ((l.dropWhile isPySpace).reverse.dropWhile isPySpace).reverse

/-- `str.split(sep)` for a one-character separator: split on every
occurrence, keeping empty parts, never returning an empty list. -/
def splitOnChar (c : Char) : List Char → List (List Char)
  | [] => [[]]
  | a :: rest =>
    match splitOnChar c rest with
    | [] => if a = c then [[], []] else [[a]]
    | h :: t => if a = c then [] :: h :: t else (a :: h) :: t

/-- Decimal digit reading for `int(...)`: every character a digit, at least
one. -/
def digits? : List Char → Option Nat
  | [] => none
  | l => l.foldl (fun acc c => match acc with
      | none => none
      | some n => if c.isDigit then some (n * 10 + (c.toNat - 48)) else none)
      (some 0)

/-- `int(str)` for base-10 literals: strips whitespace, accepts an optional
sign, otherwise raises (here: `none`).  Python's underscore digit separators
are not modelled; no claim depends on them. -/
def pyInt? (l : List Char) : Option Int :=
  match pyStrip l with
  | '-' :: ds => (digits? ds).map fun n => -(n : Int)
  | '+' :: ds => (digits? ds).map fun n => (n : Int)
  | ds => (digits? ds).map fun n => (n : Int)

/-- Line decoding of `src/problemset/programmingerrors/reducer.py`: strip
the line, skip it when empty, split on tabs, require exactly three fields,
require an integer count; any failure drops the line silently. -/
def parseLine (line : String) : Option ((String × String) × Int) :=
  match pyStrip line.data with
  | [] => none
  | stripped =>
    match splitOnChar '\t' stripped with
    | [a, b, c] =>
      match pyInt? c with
      | some n => some ((String.mk a, String.mk b), n)
      | none => none
    | _ => none

/-- Output line `current_key[0] \t current_key[1] \t current_count` of the
programmingerrors reducer. -/
def fmtAgg (k : String × String) (t : Int) : String :=
  k.1 ++ "\t" ++ k.2 ++ "\t" ++ toString t

/-- The stream loop of `src/problemset/programmingerrors/reducer.py`,
state `(current_key, current_count)`: same key accumulates; a key change
emits the finished run and restarts; the end of input flushes the held
state. -/
def reduceLines (cur : Option ((String × String) × Int)) :
    List String → List String
  | [] =>
    match cur with
    | none => []
    | some (k, t) => [fmtAgg k t]
  | line :: rest =>
    match parseLine line with
    | none => reduceLines cur rest
    | some (k, c) =>
      match cur with
      | none => reduceLines (some (k, c)) rest
      | some (k', t) =>
        if k = k' then reduceLines (some (k', t + c)) rest
        else fmtAgg k' t :: reduceLines (some (k, c)) rest

/-- The whole reducer: the loop started with `current_key = None`. -/
def reducerMain (lines : List String) : List String :=
  reduceLines none lines

/-- Record-level core of the reducer while a run with key `k` and running
total `t` is open. -/
def reduceRun (k : String × String) (t : Int) :
    List ((String × String) × Int) → List ((String × String) × Int)
  | [] => [(k, t)]
  | (k', c) :: rs =>
    if k' = k then reduceRun k (t + c) rs
    else (k, t) :: reduceRun k' c rs

/-- Record-level reducer on an already-decoded record stream. -/
def reduceRecs : List ((String × String) × Int) → List ((String × String) × Int)
  | [] => []
  | (k, c) :: rs => reduceRun k c rs

/-- Adjacent deduplication, auxiliary: drop elements equal to the previous
kept one. -/
def dedupAdjAux {α : Type} [DecidableEq α] (prev : α) : List α → List α
  | [] => []
  | b :: l => if b = prev then dedupAdjAux prev l else b :: dedupAdjAux b l

/-- Collapse every run of adjacent equal elements to its first element. -/
def dedupAdj {α : Type} [DecidableEq α] : List α → List α
  | [] => []
  | a :: l => a :: dedupAdjAux a l

/-- A record stream is grouped by key in contiguous runs exactly when the
key sequence, after collapsing adjacent repeats, has no duplicate left:
every key occurs in at most one contiguous run. -/
def Grouped (recs : List ((String × String) × Int)) : Prop :=
  (dedupAdj (recs.map Prod.fst)).Nodup

/-- Sum of the counts of all records carrying key `q`. -/
def sumFor (q : String × String) : List ((String × String) × Int) → Int
  | [] => 0
  | r :: rs => (if r.1 = q then r.2 else 0) + sumFor q rs

/-- The stream loop of `src/proofofconcept/jobs/reducer.py`, which keys by
`source_id` alone and expects TWO tab-separated fields.  It has no guard at
all: `file, value = line.strip().split("\t")` raises `ValueError` unless the
split yields exactly two parts, and `count += int(value)` raises
`ValueError` on a non-integer count — after the key-change emission already
printed.  The result pairs the lines printed before termination with a flag
that is true when the process died with an uncaught `ValueError` (and false
when it flushed normally). -/
def pocRun (cur : Option String) (count : Int) :
    List String → List String × Bool
  | [] =>
    ((match cur with
      | none => []
      | some f => [f ++ "\t" ++ toString count]), false)
  | line :: rest =>
    match splitOnChar '\t' (pyStrip line.data) with
    | [fcs, vcs] =>
      let f := String.mk fcs
      let emitted : List String :=
        match cur with
        | some cf => if cf ≠ f then [cf ++ "\t" ++ toString count] else []
        | none => []
      let count' : Int := if cur = some f then count else 0
      match pyInt? vcs with
      | none => (emitted, true)
      | some n =>
        let r := pocRun (some f) (count' + n) rest
        (emitted ++ r.1, r.2)
    | _ => ([], true)

/-- The whole proof-of-concept reducer: loop from the initial
`current_file = None`, `count = 0` state. -/
def pocReducer (lines : List String) : List String × Bool :=
  pocRun none 0 lines

/-- `str.split(sep, maxsplit)` for a one-character separator: at most
`maxN` cuts, scanning left to right. -/
def splitOnCharMax (c : Char) : Nat → List Char → List (List Char)
  | _, [] => [[]]
  | 0, l => [l]
  | maxN + 1, a :: rest =>
    if a = c then [] :: splitOnCharMax c maxN rest
    else
      match splitOnCharMax c (maxN + 1) rest with
      | [] => [[a]]
      | h :: t => (a :: h) :: t

/-- The diagnostic-line loop body of `src/problemset/lintrules/mapper.py`:
skip blank lines; unpack `path:line:column:message` via `split(":", 3)`
(fewer than four parts raises and degrades to `LINT_UNKNOWN`); the first
whitespace-delimited token of the stripped message is the rule code (an
empty message raises `IndexError`, degrading to `LINT_UNKNOWN` as well). -/
def lintLineOut (f : String) (line : String) : List String :=
  if pyStrip line.data = [] then []
  else
    match splitOnCharMax ':' 3 line.data with
    | [_, _, _, msg] =>
      match pyStrip msg with
      | [] => [f ++ "\tLINT_UNKNOWN\t1"]
      | stripped =>
        [f ++ "\tLINT_" ++ String.mk (stripped.takeWhile fun c => !isPySpace c)
          ++ "\t1"]
    | _ => [f ++ "\tLINT_UNKNOWN\t1"]

/-- Outcome of the blocking `subprocess.run` call: either it raised (binary
missing, crash before completion — message is `repr(e)`), or it completed
and produced the given stdout lines (a non-zero flake8 exit still completes
here). -/
inductive SubprocResult where
  | raised (msg : String)
  | completed (stdoutLines : List String)

/-- `src/problemset/lintrules/mapper.py` with its file-system effect made
explicit.  `fs` is the set of existing transient files; the
`NamedTemporaryFile(mode="w", suffix=".py", delete=False)` block creates
`tmp` and writes the unit text into it, and NO code path removes it
afterwards: the adapter returns with `tmp` still present on success, on a
raised subprocess call, and on every diagnostic-parsing path. -/
def lintMapper (f : String) (fs : List String) (tmp : String)
    (run : SubprocResult) : List String × List String :=
  let fsAfterCreate := fs ++ [tmp]
  match run with
  | .raised msg =>
    ([f ++ "\tLINT_ERROR_FLAKE8_FAILED\t" ++ msg], fsAfterCreate)
  | .completed outLines =>
    (outLines.flatMap (lintLineOut f), fsAfterCreate)


/-- Specification-side characterization of the unreachable-code scan: some
top-level `return` of the body is followed by a later top-level statement
that is not itself a `return`.  (A follower that is a `return` is skipped by
the scan's `continue` branch, so a body whose every post-return statement is
another `return` trips nothing.) -/
def hasStmtAfterReturn : List Stmt → Bool
  | [] => false
  | s :: rest =>
    if isRet s then rest.any fun t => !isRet t
    else hasStmtAfterReturn rest

/-- Is this node a function-definition statement? -/
def isFuncDefNode : Node → Bool
  | .stmt (.functionDef _ _) => true
  | _ => false

/-- Is this node a function definition whose body trips the
unreachable-code detector? -/
def flaggedFuncDef : Node → Bool
  | .stmt (.functionDef _ body) => hasStmtAfterReturn body
  | _ => false

/-- The well-formedness guarantee of a successful `ast.parse`: the grammar
cannot produce an exception handler with an empty body (a handler holding
only `pass` has body length one). -/
def handlerWF : Node → Bool
  | .handler (.mk _ []) => false
  | _ => true

/-- Does this observation carry the empty-except tag? -/
def isEmptyExceptObs (o : Obs) : Bool :=
  o.tag == "ERROR_EMPTY_EXCEPT"

/-- Does this observation carry the unreachable-code tag? -/
def isUnreachObs (o : Obs) : Bool :=
  o.tag == "ERROR_UNREACHABLE_CODE"

/-- Does this observation carry an undefined-name tag (the distinct suffix
is the offending name, so the test is on the fixed prefix)? -/
def hasUndefPrefix (o : Obs) : Bool :=
  "ERROR_NAME_UNDEFINED_".data.isPrefixOf o.tag.data

/-- Is this used name flagged by the undefined-name loop: neither in the
binding set nor reserved? -/
def offendingName (root : Node) (n : String) : Bool :=
  !(decide (n ∈ definedNames root)) && !(decide (n ∈ builtinNames))

/-- Example unit for the unreachable-code claims: one function whose body is
`return` followed by two `print` calls (two top-level statements after the
first return). -/
def exampleTwoAfterReturn : Node :=
  Node.mod [Stmt.functionDef "f"
    [Stmt.ret none,
     Stmt.exprStmt (Expr.call (Expr.name "print" CtxKind.load)
       [Expr.const (ConstVal.int 2)]),
     Stmt.exprStmt (Expr.call (Expr.name "print" CtxKind.load)
       [Expr.const (ConstVal.int 3)])]]

/-- Example unit for the unreachable-code boundary case: a function whose
body is `return 1` followed by `return 2` — statements do follow the first
return, but every one of them is itself a return, so the scan's
`isinstance(stmt, ast.Return)` branch always `continue`s and nothing is
ever flagged. -/
def exampleOnlyReturns : Node :=
  Node.mod [Stmt.functionDef "f"
    [Stmt.ret (some (Expr.const (ConstVal.int 1))),
     Stmt.ret (some (Expr.const (ConstVal.int 2)))]]

/-- Example unit for the undefined-name claim: two separate reads of the
same never-assigned, non-reserved name `zzz`. -/
def exampleRepeatedUndef : Node :=
  Node.mod [Stmt.exprStmt (Expr.name "zzz" CtxKind.load),
            Stmt.exprStmt (Expr.name "zzz" CtxKind.load)]

/-- Example unit for the empty-except claim: `try: pass except: pass`, the
bare handler carrying the one-statement body the grammar guarantees. -/
def exampleBareExcept : Node :=
  Node.mod [Stmt.tryS [Stmt.pass] [Handler.mk none [Stmt.pass]] [] []]

/-- Example unit for the import wire-format claim: the single statement
`import os`. -/
def exampleImportOs : Node :=
  Node.mod [Stmt.imp [⟨"os"⟩]]

/-- Keys emitted by an open run: the current key, then the later keys with
adjacent repeats collapsed. -/
theorem reduceRun_keys (rs : List ((String × String) × Int)) :
    ∀ k t, (reduceRun k t rs).map Prod.fst = k :: dedupAdjAux k (rs.map Prod.fst) := by
  induction rs with
  | nil => intro k t; simp [reduceRun, dedupAdjAux]
  | cons r rs ih =>
    intro k t
    obtain ⟨k', c⟩ := r
    by_cases h : k' = k
    · simp [reduceRun, h, dedupAdjAux, ih]
    · simp [reduceRun, h, dedupAdjAux, ih]

/-- Keys of the reducer output are exactly the input keys with adjacent
repeats collapsed. -/
theorem reduceRecs_keys (recs : List ((String × String) × Int)) :
    (reduceRecs recs).map Prod.fst = dedupAdj (recs.map Prod.fst) := by
  match recs with
  | [] => simp [reduceRecs, dedupAdj]
  | (k, c) :: rs => simp [reduceRecs, dedupAdj, reduceRun_keys]

/-- Adjacent deduplication with a fixed head preserves membership. -/
theorem mem_cons_dedupAdjAux {α : Type} [DecidableEq α] (x : α) :
    ∀ (l : List α) (a : α), x ∈ a :: dedupAdjAux a l ↔ x ∈ a :: l := by
  intro l
  induction l with
  | nil => intro a; simp [dedupAdjAux]
  | cons b t ih =>
    intro a
    by_cases h : b = a
    · subst h
      have hb := ih b
      simp only [dedupAdjAux, if_pos rfl, List.mem_cons] at hb ⊢
      tauto
    · have hb := ih b
      simp only [dedupAdjAux, if_neg h, List.mem_cons] at hb ⊢
      tauto

/-- Adjacent deduplication preserves membership. -/
theorem mem_dedupAdj {α : Type} [DecidableEq α] (x : α) (l : List α) :
    x ∈ dedupAdj l ↔ x ∈ l := by
  match l with
  | [] => simp [dedupAdj]
  | a :: t =>
    have := mem_cons_dedupAdjAux x t a
    simpa [dedupAdj] using this

/-- The open-run reducer preserves the per-key count sum: the held total is
attributed to the held key, everything else passes through. -/
theorem reduceRun_sumFor (q : String × String) (rs : List ((String × String) × Int)) :
    ∀ k t, sumFor q (reduceRun k t rs) = (if k = q then t else 0) + sumFor q rs := by
  induction rs with
  | nil => intro k t; simp [reduceRun, sumFor]
  | cons r rs ih =>
    intro k t
    obtain ⟨k', c⟩ := r
    by_cases h : k' = k
    · subst h
      have hred : reduceRun k' t ((k', c) :: rs) = reduceRun k' (t + c) rs := by
        simp [reduceRun]
      rw [hred, ih]
      simp only [sumFor]
      by_cases hq : k' = q
      · simp only [if_pos hq]; omega
      · simp only [if_neg hq]; omega
    · have hred : reduceRun k t ((k', c) :: rs) = (k, t) :: reduceRun k' c rs := by
        simp [reduceRun, h]
      rw [hred]
      simp only [sumFor, ih]

/-- The reducer preserves the per-key count sum of the whole stream. -/
theorem reduceRecs_sumFor (q : String × String)
    (recs : List ((String × String) × Int)) :
    sumFor q (reduceRecs recs) = sumFor q recs := by
  match recs with
  | [] => rfl
  | (k, c) :: rs =>
    simp only [reduceRecs, reduceRun_sumFor, sumFor]

/-- The line-level reducer loop with an open run refines the record-level
reducer on the decoded record stream: undecodable lines are skipped. -/
theorem reduceLines_eq_run (lines : List String) :
    ∀ k t, reduceLines (some (k, t)) lines
      = (reduceRun k t (lines.filterMap parseLine)).map fun r => fmtAgg r.1 r.2 := by
  induction lines with
  | nil => intro k t; simp [reduceLines, reduceRun]
  | cons line rest ih =>
    intro k t
    cases hp : parseLine line with
    | none => simp [reduceLines, hp, List.filterMap_cons, ih]
    | some rc =>
      obtain ⟨k₂, c⟩ := rc
      by_cases h : k₂ = k
      · simp [reduceLines, hp, List.filterMap_cons, reduceRun, h, ih]
      · simp [reduceLines, hp, List.filterMap_cons, reduceRun, h, ih]

/-- The whole line-level reducer equals the record-level reducer on the
decoded stream, serialized. -/
theorem reducerMain_eq (lines : List String) :
    reducerMain lines
      = (reduceRecs (lines.filterMap parseLine)).map fun r => fmtAgg r.1 r.2 := by
  induction lines with
  | nil => rfl
  | cons line rest ih =>
    cases hp : parseLine line with
    | none =>
      simpa [reducerMain, reduceLines, hp, List.filterMap_cons] using ih
    | some rc =>
      obtain ⟨k, c⟩ := rc
      simp [reducerMain, reduceLines, hp, List.filterMap_cons, reduceRecs,
        reduceLines_eq_run]

/-- C1: for every reducer input stream whose lines all decode into exactly
three tab-separated fields with integer counts and whose records are grouped
by key in contiguous runs, the key-grouped reducer emits exactly one
aggregated record per distinct input key (its key list is duplicate-free and
covers exactly the input keys), the output count of each key is the exact
sum of the counts of all input records with that key, and the printed lines
are the serialization of those records. -/
theorem reducer_exact_on_grouped_input (lines : List String)
    (_hdec : ∀ l ∈ lines, (parseLine l).isSome)
    (hg : Grouped (lines.filterMap parseLine)) :
    ((reduceRecs (lines.filterMap parseLine)).map Prod.fst).Nodup
      ∧ (∀ k, k ∈ (reduceRecs (lines.filterMap parseLine)).map Prod.fst
          ↔ k ∈ (lines.filterMap parseLine).map Prod.fst)
      ∧ (∀ k, sumFor k (reduceRecs (lines.filterMap parseLine))
          = sumFor k (lines.filterMap parseLine))
      ∧ reducerMain lines
          = (reduceRecs (lines.filterMap parseLine)).map fun r => fmtAgg r.1 r.2 := by
  refine ⟨?_, ?_, ?_, reducerMain_eq lines⟩
  · rw [reduceRecs_keys]
    exact hg
  · intro k
    rw [reduceRecs_keys, mem_dedupAdj]
  · intro k
    exact reduceRecs_sumFor k _

/-- Witness for C1 at a concrete grouped three-line stream. -/
theorem reducer_exact_on_grouped_input_witness :
    ((reduceRecs (["a\tX\t1", "a\tX\t2", "b\tY\t3"].filterMap parseLine)).map
        Prod.fst).Nodup
      ∧ sumFor ("a", "X")
          (reduceRecs (["a\tX\t1", "a\tX\t2", "b\tY\t3"].filterMap parseLine))
        = sumFor ("a", "X") (["a\tX\t1", "a\tX\t2", "b\tY\t3"].filterMap parseLine) :=
  ⟨(reducer_exact_on_grouped_input ["a\tX\t1", "a\tX\t2", "b\tY\t3"]
      (by decide) (by unfold Grouped; decide)).1,
   (reducer_exact_on_grouped_input ["a\tX\t1", "a\tX\t2", "b\tY\t3"]
      (by decide) (by unfold Grouped; decide)).2.2.1 ("a", "X")⟩

/-- C8: on the ungrouped stream `("a","X",1), ("b","X",1), ("a","X",1)` the
reducer emits three separate records in input-run order, never merging the
two non-adjacent runs of key `("a","X")`. -/
theorem reducer_never_merges_nonadjacent_runs :
    reducerMain ["a\tX\t1", "b\tX\t1", "a\tX\t1"]
      = ["a\tX\t1", "b\tX\t1", "a\tX\t1"] := by
  decide

/-- C7 (amended): the `(source_id, tag)`-keyed reducer silently drops any
line that does not decode into exactly three fields with an integer count,
leaving the aggregation of the surrounding lines untouched; the
`source_id`-keyed proof-of-concept reducer has no such guard and dies with
an uncaught `ValueError` on any line that does not split into exactly two
fields. -/
theorem malformed_line_policy :
    (∀ pre bad post, parseLine bad = none →
        reducerMain (pre ++ bad :: post) = reducerMain (pre ++ post))
      ∧ (∀ cur cnt line rest,
          (splitOnChar '\t' (pyStrip line.data)).length ≠ 2 →
          pocRun cur cnt (line :: rest) = ([], true)) := by
  constructor
  · intro pre bad post hbad
    rw [reducerMain_eq, reducerMain_eq, List.filterMap_append,
      List.filterMap_append, List.filterMap_cons, hbad]
  · intro cur cnt line rest hlen
    match hsplit : splitOnChar '\t' (pyStrip line.data) with
    | [] => simp [pocRun, hsplit]
    | [a] => simp [pocRun, hsplit]
    | [a, b] =>
      rw [hsplit] at hlen
      simp at hlen
    | a :: b :: c :: t => simp [pocRun, hsplit]

/-- Witness for C7 at Scenario D's malformed line and at a one-field line
for the proof-of-concept variant. -/
theorem malformed_line_policy_witness :
    reducerMain ["a\tX\t1", "onlytwo\tfields", "a\tX\t2"]
        = reducerMain ["a\tX\t1", "a\tX\t2"]
      ∧ pocRun none 0 ["onlytwo"] = ([], true) :=
  ⟨malformed_line_policy.1 ["a\tX\t1"] "onlytwo\tfields" ["a\tX\t2"] (by decide),
   malformed_line_policy.2 none 0 "onlytwo" [] (by decide)⟩

/-- Counterexample to C7 as stated: the proof-of-concept reducer, fed a
malformed line between two valid lines, raises (crash flag true) and loses
the surrounding aggregation instead of dropping the line silently. -/
theorem poc_reducer_crashes_on_malformed :
    pocReducer ["a\t1", "bad", "a\t2"] = ([], true) := by
  decide

/-- C2 (amended): a `SyntaxError` raised while building the parse tree —
the class that covers invalid, incomplete and legacy syntax — is converted
by both extractors into exactly one `(source_id, SYNTAX_ERROR, 1)`
observation with nothing else emitted for the unit and no propagation. -/
theorem syntax_error_single_observation (f : String) :
    peMapper f (.error .syntaxError) = .ok [⟨f, "SYNTAX_ERROR", 1⟩]
      ∧ lsMapper f (.error .syntaxError) = .ok [f ++ "\tSYNTAX_ERROR\t1"] :=
  ⟨rfl, rfl⟩

/-- Counterexample to C2 as stated: a parse failure of a class other than
`SyntaxError` — concretely, the `MemoryError` that CPython 3.11 raises for
the source text `'-' * 200000 + '5'` — is not caught by
`except SyntaxError`: no observation is emitted and the error propagates to
the caller in both extractors. -/
theorem parse_memory_error_propagates :
    lsMapper "unknown" (.error .memoryError) = .error .memoryError
      ∧ peMapper "unknown" (.error .memoryError) = .error .memoryError :=
  ⟨rfl, rfl⟩

/-- C5: the record printed for a bare `import os` alias, evaluated on the
code.  It consists of FOUR tab-separated fields — the tag and the alias name
are separated by a tab instead of being one field — so the claimed
three-field wire shape fails; the pipeline's own reducer line decoder
rejects the record (`parseLine` yields `none`). -/
theorem import_record_has_four_fields :
    lsMapper "unknown" (.ok exampleImportOs) = .ok ["unknown\tIMPORT\tos\t1"]
      ∧ (splitOnChar '\t' ("unknown\tIMPORT\tos\t1").data).length = 4
      ∧ parseLine "unknown\tIMPORT\tos\t1" = none := by
  refine ⟨?_, by decide, by decide⟩
  simp [lsMapper, exampleImportOs, walk, walkAux, Node.children, lsNodeLines]

/-- C6, evaluated on the code: the transient file written for the external
lint tool is created with `delete=False` and survives every exit path of the
adapter — the completed-run path, the raised-subprocess path, and every
diagnostic-parsing path — because no statement removes it. -/
theorem lint_tmpfile_survives_every_path (f : String) (fs : List String)
    (tmp : String) (run : SubprocResult) :
    tmp ∈ (lintMapper f fs tmp run).2 := by
  cases run <;> simp [lintMapper]

/-- Counting over a flattened per-element emission, when every element emits
the counted observation exactly when a node predicate holds. -/
theorem countP_flatMap_eq {α β : Type} (g : α → List β) (p : β → Bool)
    (q : α → Bool) (h : ∀ a, (g a).countP p = if q a then 1 else 0)
    (l : List α) : (l.flatMap g).countP p = l.countP q := by
  induction l with
  | nil => simp
  | cons a t ih =>
    rw [List.flatMap_cons, List.countP_append, h a, ih, List.countP_cons]
    by_cases hq : q a
    · simp [hq]
      omega
    · simp [hq]

/-- Counting over a flattened per-element emission, bounded by a node
predicate. -/
theorem countP_flatMap_le {α β : Type} (g : α → List β) (p : β → Bool)
    (q : α → Bool) (h : ∀ a, (g a).countP p ≤ if q a then 1 else 0)
    (l : List α) : (l.flatMap g).countP p ≤ l.countP q := by
  induction l with
  | nil => simp
  | cons a t ih =>
    rw [List.flatMap_cons, List.countP_append, List.countP_cons]
    have := h a
    by_cases hq : q a
    · simp only [if_pos hq] at this
      simp only [hq, if_pos]
      omega
    · simp only [if_neg hq] at this
      simp only [hq, if_neg, if_false]
      omega

/-- Everything the unreachable-code scan emits is the fixed
unreachable-code observation. -/
theorem unreachableFlag_mem (f : String) :
    ∀ (l : List Stmt) (b : Bool) (o : Obs),
      o ∈ unreachableFlag f b l → o = ⟨f, "ERROR_UNREACHABLE_CODE", 1⟩ := by
  intro l
  induction l with
  | nil =>
    intro b o h
    simp [unreachableFlag] at h
  | cons s rest ih =>
    intro b o h
    by_cases hr : isRet s
    · exact ih true o (by simpa [unreachableFlag, hr] using h)
    · cases b with
      | true =>
        simpa [unreachableFlag, hr] using h
      | false =>
        exact ih false o (by simpa [unreachableFlag, hr] using h)

/-- A body with a statement after its first return has a non-return
statement somewhere. -/
theorem hasStmtAfterReturn_any :
    ∀ l : List Stmt, hasStmtAfterReturn l = true →
      (l.any fun t => !isRet t) = true := by
  intro l
  induction l with
  | nil => simp [hasStmtAfterReturn]
  | cons s rest ih =>
    intro h
    by_cases hr : isRet s
    · simp only [hasStmtAfterReturn, if_pos hr] at h
      simp [List.any_cons, h]
    · simp [List.any_cons, hr]

/-- Length of the unreachable-code scan's output: one observation exactly
when the flag is already set and a non-return remains, or some return is
followed by a later non-return; zero otherwise. -/
theorem unreachableFlag_length (f : String) :
    ∀ (l : List Stmt) (b : Bool),
      (unreachableFlag f b l).length
        = if (b && l.any fun t => !isRet t) || hasStmtAfterReturn l then 1
          else 0 := by
  intro l
  induction l with
  | nil => intro b; simp [unreachableFlag, hasStmtAfterReturn]
  | cons s rest ih =>
    intro b
    by_cases hr : isRet s
    · rw [show unreachableFlag f b (s :: rest) = unreachableFlag f true rest by
        simp [unreachableFlag, hr]]
      rw [ih true]
      have himp := hasStmtAfterReturn_any rest
      simp only [hasStmtAfterReturn, if_pos hr, List.any_cons, hr]
      cases hany : (rest.any fun t => !isRet t) <;>
        cases hafter : hasStmtAfterReturn rest <;> simp_all
    · cases b with
      | true =>
        rw [show unreachableFlag f true (s :: rest)
            = [⟨f, "ERROR_UNREACHABLE_CODE", 1⟩] by
          simp [unreachableFlag, hr]]
        simp [hasStmtAfterReturn, hr, List.any_cons]
      | false =>
        rw [show unreachableFlag f false (s :: rest)
            = unreachableFlag f false rest by
          simp [unreachableFlag, hr]]
        rw [ih false]
        simp [hasStmtAfterReturn, hr]

/-- Two strings differ when they differ on a prefix shorter than the first
part of an append. -/
theorem append_ne_of_take_ne (a s t : String) (n : Nat)
    (h1 : n ≤ a.data.length) (h2 : a.data.take n ≠ t.data.take n) :
    a ++ s ≠ t := by
  intro h
  apply h2
  have hd : a.data ++ s.data = t.data := by
    rw [← String.data_append, h]
  calc a.data.take n = (a.data ++ s.data).take n :=
        (List.take_append_of_le_length h1).symm
    _ = t.data.take n := by rw [hd]

/-- No undefined-name tag is the unreachable-code tag. -/
theorem undef_ne_unreach (s : String) :
    ("ERROR_NAME_UNDEFINED_" ++ s) ≠ "ERROR_UNREACHABLE_CODE" :=
  append_ne_of_take_ne _ _ _ 7 (by decide) (by decide)

/-- No undefined-name tag is the empty-except tag. -/
theorem undef_ne_empty (s : String) :
    ("ERROR_NAME_UNDEFINED_" ++ s) ≠ "ERROR_EMPTY_EXCEPT" :=
  append_ne_of_take_ne _ _ _ 7 (by decide) (by decide)

/-- Every undefined-name tag carries the undefined-name prefix. -/
theorem undef_prefix_true (sid : String) (c : Int) (s : String) :
    hasUndefPrefix ⟨sid, "ERROR_NAME_UNDEFINED_" ++ s, c⟩ = true := by
  simp only [hasUndefPrefix, String.data_append]
  exact List.isPrefixOf_iff_prefix.mpr (List.prefix_append _ _)

/-- Shape of everything the undefined-name loop emits. -/
theorem undefObs_mem (f : String) (root : Node) (o : Obs)
    (ho : o ∈ undefObs f root) :
    ∃ n, o = ⟨f, "ERROR_NAME_UNDEFINED_" ++ pyUpper n, 1⟩ := by
  unfold undefObs at ho
  rw [List.mem_filterMap] at ho
  obtain ⟨n, _, hsome⟩ := ho
  by_cases hc : n ∈ definedNames root ∨ n ∈ builtinNames
  · simp [hc] at hsome
  · simp only [hc, if_neg, if_false, Option.some.injEq] at hsome
    exact ⟨n, hsome.symm⟩

/-- Per-node count of empty-except observations: one exactly on a handler
node with an empty body (`handlerWF` false), zero on every other node. -/
theorem peNodeObs_countP_empty (f : String) (n : Node) :
    (peNodeObs f n).countP isEmptyExceptObs = if handlerWF n then 0 else 1 := by
  cases n with
  | mod body => simp [peNodeObs, handlerWF]
  | stmt s =>
    cases s
    case functionDef nm body =>
      have h0 : (unreachableFlag f false body).countP isEmptyExceptObs = 0 :=
        List.countP_eq_zero.mpr fun o ho => by
          have he := unreachableFlag_mem f body false o ho
          subst he
          simp [isEmptyExceptObs]
      simpa [peNodeObs, handlerWF] using h0
    all_goals simp [peNodeObs, handlerWF, isEmptyExceptObs]
  | expr e =>
    cases e
    case binOp l op r =>
      cases op
      case div =>
        by_cases hz : divRightIsZeroConst r <;>
          simp [peNodeObs, hz, handlerWF, isEmptyExceptObs]
      all_goals simp [peNodeObs, handlerWF]
    case call fn args =>
      cases fn
      case name id ctx =>
        by_cases hp : id = "print" <;>
          simp [peNodeObs, hp, handlerWF, isEmptyExceptObs]
      all_goals simp [peNodeObs, handlerWF]
    all_goals simp [peNodeObs, handlerWF]
  | handler h =>
    obtain ⟨t, body⟩ := h
    cases t <;> cases body <;> simp [peNodeObs, handlerWF, isEmptyExceptObs]

/-- Per-node count of unreachable-code observations: one exactly on a
function-definition node whose body trips the detector, zero elsewhere. -/
theorem peNodeObs_countP_unreach (f : String) (n : Node) :
    (peNodeObs f n).countP isUnreachObs = if flaggedFuncDef n then 1 else 0 := by
  cases n with
  | mod body => simp [peNodeObs, flaggedFuncDef]
  | stmt s =>
    cases s
    case functionDef nm body =>
      have hcnt : (unreachableFlag f false body).countP isUnreachObs
          = (unreachableFlag f false body).length :=
        List.countP_eq_length.mpr fun o ho => by
          have he := unreachableFlag_mem f body false o ho
          subst he
          simp [isUnreachObs]
      have hlen := unreachableFlag_length f body false
      simp only [Bool.false_and, Bool.false_or] at hlen
      simp only [peNodeObs, flaggedFuncDef, hcnt, hlen]
    all_goals simp [peNodeObs, flaggedFuncDef, isUnreachObs]
  | expr e =>
    cases e
    case binOp l op r =>
      cases op
      case div =>
        by_cases hz : divRightIsZeroConst r <;>
          simp [peNodeObs, hz, flaggedFuncDef, isUnreachObs]
      all_goals simp [peNodeObs, flaggedFuncDef]
    case call fn args =>
      cases fn
      case name id ctx =>
        by_cases hp : id = "print" <;>
          simp [peNodeObs, hp, flaggedFuncDef, isUnreachObs]
      all_goals simp [peNodeObs, flaggedFuncDef]
    all_goals simp [peNodeObs, flaggedFuncDef]
  | handler h =>
    obtain ⟨t, body⟩ := h
    cases t <;> cases body <;> simp [peNodeObs, flaggedFuncDef, isUnreachObs]

/-- No structural detector emits a tag with the undefined-name prefix. -/
theorem peNodeObs_countP_undefPrefix (f : String) (n : Node) :
    (peNodeObs f n).countP hasUndefPrefix = 0 := by
  cases n with
  | mod body => simp [peNodeObs]
  | stmt s =>
    cases s
    case functionDef nm body =>
      exact List.countP_eq_zero.mpr fun o ho => by
        have he := unreachableFlag_mem f body false o ho
        subst he
        simp [hasUndefPrefix]
    all_goals simp [peNodeObs, hasUndefPrefix]
  | expr e =>
    cases e
    case binOp l op r =>
      cases op
      case div =>
        by_cases hz : divRightIsZeroConst r <;>
          simp [peNodeObs, hz, hasUndefPrefix]
      all_goals simp [peNodeObs]
    case call fn args =>
      cases fn
      case name id ctx =>
        by_cases hp : id = "print" <;> simp [peNodeObs, hp, hasUndefPrefix]
      all_goals simp [peNodeObs]
    all_goals simp [peNodeObs]
  | handler h =>
    obtain ⟨t, body⟩ := h
    cases t <;> cases body <;> simp [peNodeObs, hasUndefPrefix]

/-- The undefined-name loop emits exactly one prefixed observation per
offending occurrence of a used name. -/
theorem undefObs_countP (f : String) (root : Node) :
    (undefObs f root).countP hasUndefPrefix
      = (usedNames root).countP (offendingName root) := by
  unfold undefObs
  generalize usedNames root = l
  induction l with
  | nil => simp
  | cons a t ih =>
    by_cases hc : a ∈ definedNames root ∨ a ∈ builtinNames
    · have hoff : offendingName root a = false := by
        rcases hc with h | h <;> simp [offendingName, h]
      simp [List.filterMap_cons, hc, List.countP_cons, ih, hoff]
    · have hoff : offendingName root a = true := by
        push_neg at hc
        simp [offendingName, hc.1, hc.2]
      simp [List.filterMap_cons, hc, List.countP_cons, ih, hoff,
        undef_prefix_true]

/-- The undefined-name loop never emits the unreachable-code tag. -/
theorem undefObs_countP_unreach_zero (f : String) (root : Node) :
    (undefObs f root).countP isUnreachObs = 0 :=
  List.countP_eq_zero.mpr fun o ho => by
    obtain ⟨n, rfl⟩ := undefObs_mem f root o ho
    simpa [isUnreachObs] using undef_ne_unreach (pyUpper n)

/-- The undefined-name loop never emits the empty-except tag. -/
theorem undefObs_countP_empty_zero (f : String) (root : Node) :
    (undefObs f root).countP isEmptyExceptObs = 0 :=
  List.countP_eq_zero.mpr fun o ho => by
    obtain ⟨n, rfl⟩ := undefObs_mem f root o ho
    simpa [isEmptyExceptObs] using undef_ne_empty (pyUpper n)

/-- A node that trips the unreachable-code detector is a function
definition. -/
theorem flagged_imp_funcdef (n : Node) (h : flaggedFuncDef n = true) :
    isFuncDefNode n = true := by
  cases n with
  | mod body => simp [flaggedFuncDef] at h
  | stmt s => cases s <;> simp_all [flaggedFuncDef, isFuncDefNode]
  | expr e => simp [flaggedFuncDef] at h
  | handler hh => simp [flaggedFuncDef] at h

/-- C3 (amended): for every successfully parsed unit, the extractor emits
exactly one unreachable-code observation per function definition in whose
top-level body some `return` is followed by a later top-level statement
that is not itself a `return` (`flaggedFuncDef` via `hasStmtAfterReturn`),
and none for any other function definition: the scan breaks at the first
flagged statement instead of flagging every later statement, and a body
whose every post-return statement is another `return` is never flagged. -/
theorem unreachable_once_per_flagged_function (f : String) (root : Node) :
    (peMapperObs f root).countP isUnreachObs
      = (walk root).countP flaggedFuncDef := by
  unfold peMapperObs
  rw [List.countP_append]
  have h2 := countP_flatMap_eq (peNodeObs f) isUnreachObs flaggedFuncDef
    (peNodeObs_countP_unreach f) (walk root)
  rw [undefObs_countP_unreach_zero, h2]
  omega

/-- Counterexample to C3 as stated: a function body `return` followed by
two statements yields ONE unreachable-code observation, not one per
subsequent statement (two); and the boundary case `return 1; return 2`
(statements after a return, all of them returns) yields NONE. -/
theorem unreachable_break_counterexample :
    (peMapperObs "unknown" exampleTwoAfterReturn).countP isUnreachObs = 1
      ∧ ¬ (peMapperObs "unknown" exampleTwoAfterReturn).countP isUnreachObs
          = 2
      ∧ (peMapperObs "unknown" exampleOnlyReturns).countP isUnreachObs
          = 0 := by
  have h : peMapperObs "unknown" exampleTwoAfterReturn
      = [⟨"unknown", "ERROR_UNREACHABLE_CODE", 1⟩,
         ⟨"unknown", "WARNING_PRINT_USED", 1⟩,
         ⟨"unknown", "WARNING_PRINT_USED", 1⟩] := by
    simp [peMapperObs, exampleTwoAfterReturn, undefObs, usedNames,
      definedNames, walk, walkAux, Node.children, loadName, assignTargets,
      peNodeObs, builtinNames, unreachableFlag, isRet, optExprChild]
  have h0 : peMapperObs "unknown" exampleOnlyReturns = [] := by
    simp [peMapperObs, exampleOnlyReturns, undefObs, usedNames,
      definedNames, walk, walkAux, Node.children, loadName, assignTargets,
      peNodeObs, builtinNames, unreachableFlag, isRet, optExprChild]
  rw [h, h0]
  refine ⟨by decide, by decide, by decide⟩

/-- C9: the structural-error extractor emits at most one unreachable-code
observation per function definition in the unit — globally, the count is
bounded by the number of function-definition nodes, and the per-node
emission for any function definition has at most one such observation. -/
theorem unreachable_at_most_one_per_function (f : String) (root : Node) :
    (peMapperObs f root).countP isUnreachObs
        ≤ (walk root).countP isFuncDefNode
      ∧ ∀ nm body,
          (peNodeObs f (Node.stmt (Stmt.functionDef nm body))).countP
              isUnreachObs ≤ 1 := by
  constructor
  · unfold peMapperObs
    rw [List.countP_append, undefObs_countP_unreach_zero]
    have h2 := countP_flatMap_le (peNodeObs f) isUnreachObs isFuncDefNode
      (fun n => by
        rw [peNodeObs_countP_unreach]
        cases hF : flaggedFuncDef n
        · simp
        · simp [flagged_imp_funcdef n hF])
      (walk root)
    omega
  · intro nm body
    rw [peNodeObs_countP_unreach]
    cases hF : flaggedFuncDef (Node.stmt (Stmt.functionDef nm body)) <;> simp

/-- C4 (amended): the undefined-name loop emits one observation per
offending READ OCCURRENCE — one for each entry of `used_names` that is
neither in the binding set nor reserved — so repeated reads of the same
undefined name yield repeated observations with the same name-suffixed tag
rather than collapsing to one. -/
theorem undef_tag_per_occurrence (f : String) (root : Node) :
    (peMapperObs f root).countP hasUndefPrefix
      = (usedNames root).countP (offendingName root) := by
  unfold peMapperObs
  rw [List.countP_append, undefObs_countP]
  have h0 := countP_flatMap_eq (peNodeObs f) hasUndefPrefix (fun _ => false)
    (fun a => by simp [peNodeObs_countP_undefPrefix]) (walk root)
  have hz : (walk root).countP (fun _ => false) = 0 := by simp
  omega

/-- Counterexample to C4 as stated: two reads of the same undefined name
`zzz` produce TWO observations with the identical tag
`ERROR_NAME_UNDEFINED_ZZZ`, not one per distinct offending name. -/
theorem undef_tag_counterexample :
    peMapperObs "unknown" exampleRepeatedUndef
        = [⟨"unknown", "ERROR_NAME_UNDEFINED_ZZZ", 1⟩,
           ⟨"unknown", "ERROR_NAME_UNDEFINED_ZZZ", 1⟩]
      ∧ ¬ (peMapperObs "unknown" exampleRepeatedUndef).countP hasUndefPrefix
          = 1 := by
  have h : peMapperObs "unknown" exampleRepeatedUndef
      = [⟨"unknown", "ERROR_NAME_UNDEFINED_ZZZ", 1⟩,
         ⟨"unknown", "ERROR_NAME_UNDEFINED_ZZZ", 1⟩] := by
    simp [peMapperObs, exampleRepeatedUndef, undefObs, usedNames,
      definedNames, walk, walkAux, Node.children, loadName, assignTargets,
      peNodeObs, builtinNames,
      show pyUpper "zzz" = "ZZZ" from by decide]
  rw [h]
  constructor
  · rfl
  · decide

/-- C10: the empty-except branch fires only on a handler whose body list has
length exactly zero; under the parse guarantee that every handler body is
non-empty, the extractor never emits `ERROR_EMPTY_EXCEPT`. -/
theorem empty_except_branch_dead (f : String) (root : Node) :
    ((walk root).all handlerWF = true →
        (peMapperObs f root).countP isEmptyExceptObs = 0)
      ∧ ∀ t body,
          (peNodeObs f (Node.handler (Handler.mk t body))).countP
              isEmptyExceptObs = if body.length = 0 then 1 else 0 := by
  constructor
  · intro hwf
    unfold peMapperObs
    rw [List.countP_append, undefObs_countP_empty_zero]
    have h2 := countP_flatMap_eq (peNodeObs f) isEmptyExceptObs
      (fun n => !handlerWF n)
      (fun n => by
        rw [peNodeObs_countP_empty]
        cases hW : handlerWF n <;> simp [hW])
      (walk root)
    have h3 : (walk root).countP (fun n => !handlerWF n) = 0 :=
      List.countP_eq_zero.mpr fun n hn => by
        have := List.all_eq_true.mp hwf n hn
        simp [this]
    omega
  · intro t body
    rw [peNodeObs_countP_empty]
    cases body <;> simp [handlerWF]

/-- Witness for C10: a unit whose bare handler body is a single `pass` (body
length one) satisfies the parse guarantee and produces no empty-except
observation. -/
theorem empty_except_branch_dead_witness :
    (peMapperObs "unknown" exampleBareExcept).countP isEmptyExceptObs = 0 :=
  (empty_except_branch_dead "unknown" exampleBareExcept).1 (by
    simp [exampleBareExcept, walk, walkAux, Node.children, handlerWF,
      optExprChild])
